import Mathlib

set_option maxHeartbeats 1000000
set_option synthInstance.maxHeartbeats 1000000
set_option synthInstance.maxSize 8192

/-!
Shallow embedding of `src/bucket_storage.hpp` (template class `BucketStorage<T>`).

Buckets live in an arena (`heap : List (Option (Bucket α))`); a C++ `Bucket*`
is modeled as `Option Nat` (an arena index, `none` = `nullptr`).  `delete`
replaces the arena cell by `none`, so a dangling pointer dereferences to
`none`.  Raw (possibly uninitialized) C++ arrays are modeled as lists read
with `List.getD` (default `0` / `none`) and written with `List.set`.
Operations that dereference pointers return `Option` results: `none` models a
null/dangling dereference (undefined behavior in the C++ source).
`uint64_t` arithmetic wraps modulo `2 ^ 64`.
-/

namespace BucketModel

/-- Modulus of the C++ 64-bit unsigned types (`size_t`, `uint64_t`). -/
def U64 : Nat := 2 ^ 64

/-- The creation id of a default-constructed (sentinel) bucket:
`std::numeric_limits<std::size_t>::max()`. -/
def sentinelId : Nat := U64 - 1

/-- `GeneralBucketContent`: the shared context holding the configured block
capacity and the monotonically increasing id counter. -/
structure GeneralBucketContent where
  blockCapacity : Nat
  idCounter : Nat
deriving DecidableEq, Repr

/-- `GeneralBucketContent::id()`: `return idCounter++;` on a `uint64_t`
counter (post-increment, wrapping). -/
def GeneralBucketContent.genId (g : GeneralBucketContent) : Nat × GeneralBucketContent :=
  (g.idCounter, { g with idCounter := (g.idCounter + 1) % U64 })

/-- `Bucket`: one fixed-capacity block with its three index arrays and raw
element storage.  `next`/`prev` are the Block List links,
`nextIncomplete`/`prevIncomplete` the Incomplete List links. -/
structure Bucket (α : Type) where
  id : Nat
  next : Option Nat
  prev : Option Nat
  nextIncomplete : Option Nat
  prevIncomplete : Option Nat
  data : List (Option α)
  size : Nat
  firstIndex : Nat
  lastIndex : Nat
  nextData : List Nat
  prevData : List Nat
  idData : List Nat
deriving DecidableEq, Repr

/-- `Bucket::Bucket()`: the default constructor, used only for the sentinel
bucket (id `SIZE_MAX`, all pointers null, no arrays). -/
def Bucket.sentinel (α : Type) : Bucket α :=
  ⟨sentinelId, none, none, none, none, [], 0, 0, 0, [], [], []⟩

/-- `Bucket::isEnd()`: `next == nullptr`. -/
def Bucket.isEnd {α : Type} (b : Bucket α) : Bool := b.next.isNone

/-- `Bucket::isBegin()`: `prev == nullptr`. -/
def Bucket.isBegin {α : Type} (b : Bucket α) : Bool := b.prev.isNone

/-- `Bucket::isEmpty()`: `size == 0`. -/
def Bucket.isEmpty {α : Type} (b : Bucket α) : Bool := b.size == 0

/-- `Bucket::isFull()`: `size == generalContent->getBlockCapacity()`; the
capacity is passed explicitly since the C++ bucket reads it through its
shared-context pointer. -/
def Bucket.isFull {α : Type} (b : Bucket α) (cap : Nat) : Bool := b.size == cap

/-- `Bucket::prepareInsert()`: pick the slot for the next insertion (result
unspecified on a full bucket).  Returns the slot together with the possibly
mutated bucket (the empty case sets `firstIndex = lastIndex = 0`). -/
def Bucket.prepareInsert {α : Type} (b : Bucket α) : Nat × Bucket α :=
  if b.size = 0 then
    (0, { b with firstIndex := 0, lastIndex := 0 })
  else if b.nextData.getD b.lastIndex 0 = b.firstIndex then
    (b.size, b)
  else
    (b.nextData.getD b.lastIndex 0, b)

/-- `Bucket::completeInsert(index)`: splice a never-used slot (`size == index`)
onto the chain, then stamp the insertion id, move `lastIndex` and bump `size`.
The fresh insertion id is passed in (the C++ draws it from the shared
context). -/
def Bucket.completeInsert {α : Type} (b : Bucket α) (index idv : Nat) : Bucket α :=
  let b :=
    if b.size = index then
      let nd := b.nextData.set b.lastIndex index
      let pd := b.prevData.set b.firstIndex index
      let nd := nd.set index b.firstIndex
      let pd := pd.set index b.lastIndex
      { b with nextData := nd, prevData := pd }
    else b
  { b with idData := b.idData.set index idv, lastIndex := index, size := b.size + 1 }

/-- `Bucket::erase(index)`: destroy the element, advance `firstIndex` /
retreat `lastIndex` at the chain ends, or unlink a middle slot and splice it
in right after `lastIndex` as the head of the recycled free-slot chain; then
decrement `size`. -/
def Bucket.erase {α : Type} (b : Bucket α) (index : Nat) : Bucket α :=
  let b := { b with data := b.data.set index none }
  let b :=
    if index = b.firstIndex then
      { b with firstIndex := b.nextData.getD b.firstIndex 0 }
    else if index = b.lastIndex then
      { b with lastIndex := b.prevData.getD b.lastIndex 0 }
    else
      let wasPrevIndex := b.prevData.getD index 0
      let wasNextIndex := b.nextData.getD index 0
      let nd := b.nextData.set wasPrevIndex wasNextIndex
      let pd := b.prevData.set wasNextIndex wasPrevIndex
      let myNextIndex := nd.getD b.lastIndex 0
      let nd := nd.set b.lastIndex index
      let pd := pd.set myNextIndex index
      let nd := nd.set index myNextIndex
      let pd := pd.set index b.lastIndex
      { b with nextData := nd, prevData := pd }
  { b with size := b.size - 1 }

/-- An iterator: a raw bucket pointer (arena index) and a slot index. -/
structure Iter where
  bucket : Nat
  index : Nat
deriving DecidableEq, Repr

/-- `BucketStorage`: the container - shared context, element/bucket counts and
the `first`/`last`/`incomplete` bucket pointers, plus the arena the buckets
live in. -/
structure BucketStorage (α : Type) where
  generalContent : GeneralBucketContent
  dataSize : Nat
  blocksCount : Nat
  first : Option Nat
  last : Option Nat
  incomplete : Option Nat
  heap : List (Option (Bucket α))
deriving DecidableEq, Repr

namespace BucketStorage

variable {α : Type}

/-- Dereference a bucket pointer; `none` models dereferencing a null or
dangling pointer. -/
def getBucket (st : BucketStorage α) (p : Option Nat) : Option (Bucket α) :=
  match p with
  | none => none
  | some a => st.heap.getD a none

/-- Overwrite the arena cell at `a`. -/
def setBucket (st : BucketStorage α) (a : Nat) (b : Bucket α) : BucketStorage α :=
  { st with heap := st.heap.set a (some b) }

/-- Apply a field update through a bucket pointer (a C++ setter call such as
`p->setPrev(q)`); a write through a dead pointer leaves the model state
unchanged. -/
def modifyBucket (st : BucketStorage α) (a : Nat) (f : Bucket α → Bucket α) : BucketStorage α :=
  match st.heap.getD a none with
  | none => st
  | some b => setBucket st a (f b)

/-- `new Bucket(...)`: append to the arena, returning the fresh address. -/
def allocBucket (st : BucketStorage α) (b : Bucket α) : BucketStorage α × Nat :=
  ({ st with heap := st.heap ++ [some b] }, st.heap.length)

/-- `delete bucket`: the arena cell becomes dead. -/
def freeBucket (st : BucketStorage α) (a : Nat) : BucketStorage α :=
  { st with heap := st.heap.set a none }

/-- `BucketStorage::BucketStorage()`: default block capacity 64, a fresh
sentinel bucket, `first = last = incomplete = sentinel`. -/
def mkDefault : BucketStorage α :=
  { generalContent := ⟨64, 0⟩, dataSize := 0, blocksCount := 0,
    first := some 0, last := some 0, incomplete := some 0,
    heap := [some (Bucket.sentinel α)] }

/-- `BucketStorage::BucketStorage(size_type block_capacity)`: throws
(`Except.error`) iff the capacity is zero; otherwise yields an empty container
with its own sentinel. -/
def mkWithCapacity (cap : Nat) : Except Unit (BucketStorage α) :=
  if cap = 0 then .error ()
  else .ok
    { generalContent := ⟨cap, 0⟩, dataSize := 0, blocksCount := 0,
      first := some 0, last := some 0, incomplete := some 0,
      heap := [some (Bucket.sentinel α)] }

/-- `BucketStorage::empty()`. -/
def empty (st : BucketStorage α) : Bool := st.dataSize == 0

/-- `BucketStorage::size()`. -/
def size (st : BucketStorage α) : Nat := st.dataSize

/-- `BucketStorage::capacity()`: `blockCapacity * blocksCount` in `size_t`
arithmetic. -/
def capacity (st : BucketStorage α) : Nat :=
  st.generalContent.blockCapacity * st.blocksCount % U64

/-- `BucketStorage::begin()`: `iterator(first, first->getFirstIndex())`. -/
def beginIt (st : BucketStorage α) : Option Iter :=
  match st.first with
  | none => none
  | some fa =>
    match getBucket st (some fa) with
    | none => none
    | some fb => some ⟨fa, fb.firstIndex⟩

/-- `BucketStorage::end()`: `iterator(last, 0)`. -/
def endIt (st : BucketStorage α) : Option Iter :=
  match st.last with
  | none => none
  | some la => some ⟨la, 0⟩

/-- `AbstractIterator::operator++`: follow `nextData` inside the bucket, or
hop to the next bucket's `firstIndex` (`shiftNextBucket`; at the sentinel the
iterator stays put). -/
def iterNext (st : BucketStorage α) (it : Iter) : Option Iter :=
  match getBucket st (some it.bucket) with
  | none => none
  | some b =>
    if it.index ≠ b.lastIndex then
      some ⟨it.bucket, b.nextData.getD it.index 0⟩
    else
      match b.next with
      | none => some it
      | some na =>
        match getBucket st (some na) with
        | none => none
        | some nb => some ⟨na, nb.firstIndex⟩

/-- `AbstractIterator::operator--`: follow `prevData` inside the bucket, or
hop to the previous bucket's `lastIndex` (`shiftPrevBucket`; at the begin
bucket the index resets to `firstIndex`). -/
def iterPrev (st : BucketStorage α) (it : Iter) : Option Iter :=
  match getBucket st (some it.bucket) with
  | none => none
  | some b =>
    if it.index ≠ b.firstIndex then
      some ⟨it.bucket, b.prevData.getD it.index 0⟩
    else
      match b.prev with
      | none => some ⟨it.bucket, b.firstIndex⟩
      | some pa =>
        match getBucket st (some pa) with
        | none => none
        | some pb => some ⟨pa, pb.lastIndex⟩

/-- `AbstractIterator::operator<`: same bucket id - compare slot insertion
ids with the sentinel special-cased (`!bucket->isEnd() && ...`); different
buckets - compare bucket creation ids. -/
def iterLt (st : BucketStorage α) (i j : Iter) : Option Bool :=
  match getBucket st (some i.bucket), getBucket st (some j.bucket) with
  | some bi, some bj =>
    if bi.id = bj.id then
      some (!bi.isEnd && decide (bi.idData.getD i.index 0 < bj.idData.getD j.index 0))
    else
      some (decide (bi.id < bj.id))
  | _, _ => none

/-- `AbstractIterator::operator>`: the mirror image of `operator<`. -/
def iterGt (st : BucketStorage α) (i j : Iter) : Option Bool :=
  match getBucket st (some i.bucket), getBucket st (some j.bucket) with
  | some bi, some bj =>
    if bi.id = bj.id then
      some (!bi.isEnd && decide (bj.idData.getD j.index 0 < bi.idData.getD i.index 0))
    else
      some (decide (bj.id < bi.id))
  | _, _ => none

/-- `BucketStorage::prepareInsert()`: when the incomplete head is the
sentinel, allocate a fresh bucket linked immediately before the sentinel and
make it the sole Incomplete List member; update `first` if the container was
empty, bump `blocksCount`. -/
def prepareInsertS (st : BucketStorage α) : Option (BucketStorage α) :=
  match getBucket st st.incomplete with
  | none => none
  | some incB =>
    if incB.isEnd then
      match st.last with
      | none => none
      | some la =>
        match getBucket st (some la) with
        | none => none
        | some lastB =>
          let (idv, gc) := st.generalContent.genId
          let cap := gc.blockCapacity
          let fresh : Bucket α :=
            { id := idv, next := some la, prev := lastB.prev,
              nextIncomplete := some la, prevIncomplete := none,
              data := List.replicate cap none, size := 0, firstIndex := 0, lastIndex := 0,
              nextData := List.replicate cap 0, prevData := List.replicate cap 0,
              idData := List.replicate cap 0 }
          let (st1, a) := allocBucket { st with generalContent := gc } fresh
          let st2 := modifyBucket st1 la fun x => { x with prev := some a }
          let st3 :=
            match lastB.prev with
            | some pa => modifyBucket st2 pa fun x => { x with next := some a }
            | none => st2
          let st4 := modifyBucket st3 la fun x => { x with prevIncomplete := some a }
          let st5 := { st4 with incomplete := some a }
          let st6 := if st5.dataSize = 0 then { st5 with first := some a } else st5
          some { st6 with blocksCount := st6.blocksCount + 1 }
    else
      some st

/-- `BucketStorage::completeInsert()`: if the target bucket just became full,
pop it off the Incomplete List; always `++dataSize`. -/
def completeInsertS (st : BucketStorage α) : Option (BucketStorage α) :=
  match st.incomplete with
  | none => none
  | some ia =>
    match getBucket st (some ia) with
    | none => none
    | some b =>
      if b.isFull st.generalContent.blockCapacity then
        let na := b.nextIncomplete
        let st1 := { st with incomplete := na }
        match getBucket st1 na with
        | none => none
        | some nb =>
          match nb.prevIncomplete with
          | none => none
          | some pa =>
            let st2 := modifyBucket st1 pa fun x => { x with nextIncomplete := none }
            let st3 :=
              match na with
              | some naa => modifyBucket st2 naa fun x => { x with prevIncomplete := none }
              | none => st2
            some { st3 with dataSize := st3.dataSize + 1 }
      else
        some { st with dataSize := st.dataSize + 1 }

/-- `BucketStorage::undoInsert()`: if the incomplete bucket is empty (it was
freshly allocated for the failing insert), unlink it from before the sentinel
and destroy it.  Note: `first` is not restored. -/
def undoInsert (st : BucketStorage α) : Option (BucketStorage α) :=
  match st.incomplete with
  | none => none
  | some ia =>
    match getBucket st (some ia) with
    | none => none
    | some ib =>
      if ib.isEmpty then
        match st.last with
        | none => none
        | some la =>
          let st1 := modifyBucket st la fun x => { x with prevIncomplete := none }
          let st2 := modifyBucket st1 la fun x => { x with prev := ib.prev }
          let st3 :=
            match ib.prev with
            | some ta => modifyBucket st2 ta fun x => { x with next := some la }
            | none => st2
          some { freeBucket st3 ia with incomplete := some la, blocksCount := st3.blocksCount - 1 }
      else
        some st

/-- `BucketStorage::insert(value)`, successful path: storage `prepareInsert`,
then `Bucket::insert` (bucket `prepareInsert`, placement-construction of the
value, bucket `completeInsert` with a fresh id), then storage
`completeInsert`; returns the iterator to the new element. -/
def insertOk (st : BucketStorage α) (v : α) : Option (BucketStorage α × Iter) :=
  match prepareInsertS st with
  | none => none
  | some st1 =>
    match st1.incomplete with
    | none => none
    | some a =>
      match getBucket st1 (some a) with
      | none => none
      | some b0 =>
        let (index, b1) := b0.prepareInsert
        let b2 := { b1 with data := b1.data.set index (some v) }
        let (idv, gc) := st1.generalContent.genId
        let b3 := b2.completeInsert index idv
        let st2 := setBucket { st1 with generalContent := gc } a b3
        match completeInsertS st2 with
        | none => none
        | some st3 => some (st3, ⟨a, index⟩)

/-- `BucketStorage::insert(value)` when the construction (copy/move) of the
value throws: storage `prepareInsert` and bucket `prepareInsert` have run,
the construction fails, `undoInsert` unwinds and the exception propagates;
the result is the container state left behind. -/
def insertFail (st : BucketStorage α) : Option (BucketStorage α) :=
  match prepareInsertS st with
  | none => none
  | some st1 =>
    match st1.incomplete with
    | none => none
    | some a =>
      match getBucket st1 (some a) with
      | none => none
      | some b0 =>
        let (_, b1) := b0.prepareInsert
        undoInsert (setBucket st1 a b1)

/-- `BucketStorage::erase(it)`: precompute the successor with `operator++`,
erase inside the bucket, then either destroy the now-empty bucket (unlinking
it from both lists, fixing `first`) or push the newly incomplete bucket onto
the Incomplete List; `--dataSize`; return the precomputed successor. -/
def erase (st : BucketStorage α) (it : Iter) : Option (BucketStorage α × Iter) :=
  match iterNext st it with
  | none => none
  | some temp =>
    match getBucket st (some it.bucket) with
    | none => none
    | some b0 =>
      let b := b0.erase it.index
      let st1 := setBucket st it.bucket b
      if b.isEmpty then
        match b.next with
        | none => none
        | some na =>
          let st2 := modifyBucket st1 na fun x => { x with prev := b.prev }
          let st3 :=
            match b.prev with
            | some pa => modifyBucket st2 pa fun x => { x with next := b.next }
            | none => { st2 with first := b.next }
          let st4 :=
            match b.nextIncomplete with
            | some xa => modifyBucket st3 xa fun x => { x with prevIncomplete := b.prevIncomplete }
            | none => st3
          let st5 :=
            match b.prevIncomplete with
            | some pa => modifyBucket st4 pa fun x => { x with nextIncomplete := b.nextIncomplete }
            | none =>
              if st4.incomplete = some it.bucket then
                { st4 with incomplete := b.nextIncomplete }
              else st4
          some ({ freeBucket st5 it.bucket with
                    blocksCount := st5.blocksCount - 1, dataSize := st5.dataSize - 1 }, temp)
      else if b.size = st1.generalContent.blockCapacity - 1 then
        match st1.incomplete with
        | none => none
        | some ia =>
          let st2 := modifyBucket st1 ia fun x => { x with prevIncomplete := some it.bucket }
          let st3 := modifyBucket st2 it.bucket fun x => { x with nextIncomplete := some ia }
          some ({ st3 with incomplete := some it.bucket, dataSize := st3.dataSize - 1 }, temp)
      else
        some ({ st1 with dataSize := st1.dataSize - 1 }, temp)

/-- The loop body of `BucketStorage::clear()`:
`while (it != end()) delete it.shiftNextBucket().bucket;`, fuel-bounded. -/
def clearGo (st : BucketStorage α) : Nat → Iter → Option (BucketStorage α)
  | 0, _ => none
  | fuel + 1, it =>
    match endIt st with
    | none => none
    | some e =>
      if it = e then
        some st
      else
        match getBucket st (some it.bucket) with
        | none => none
        | some b =>
          match b.next with
          | none => clearGo (freeBucket st it.bucket) fuel it
          | some na =>
            match getBucket st (some na) with
            | none => none
            | some nb => clearGo (freeBucket st it.bucket) fuel ⟨na, nb.firstIndex⟩

/-- `BucketStorage::clear()`: destroy every real bucket, reset
`first`/`incomplete` to the sentinel, clear the sentinel's backward links and
zero the counters. -/
def clear (st : BucketStorage α) : Option (BucketStorage α) :=
  if st.dataSize = 0 then
    some st
  else
    match beginIt st with
    | none => none
    | some b =>
      match clearGo st (st.blocksCount + 1) b with
      | none => none
      | some st1 =>
        match st1.last with
        | none => none
        | some la =>
          let st2 := { st1 with first := st1.last, incomplete := st1.last }
          let st3 := modifyBucket st2 la fun x => { x with prev := none, prevIncomplete := none }
          some { st3 with dataSize := 0, blocksCount := 0 }

/-- `BucketStorage::BucketStorage(BucketStorage&&)` /
move assignment into a fresh target: the target steals everything; the source
is left by `resetPointers()` with null `first`/`last`/`incomplete` and
`dataSize = 0` (but `blocksCount` untouched).  Returns (target, source). -/
def moveCtor (other : BucketStorage α) : BucketStorage α × BucketStorage α :=
  (other, { other with first := none, last := none, incomplete := none, dataSize := 0 })

/-- `BucketStorage::swap(other)`: exchanges every scalar and pointer field
(and, in the arena model, the arenas). -/
def swap (st other : BucketStorage α) : BucketStorage α × BucketStorage α :=
  (other, st)

/-- The element-copying walk of `Bucket::Bucket(const Bucket&, ...)`: follow
the source's active chain from `firstIndex`, copying `data`, `nextData`,
`prevData` and `idData` at each active slot, stopping after `lastIndex`
(the iterator walk leaves the bucket there); fueled by the source's size. -/
def copyBucketSlots (src : Bucket α) : Bucket α → Nat → Nat → Bucket α
  | dst, 0, _ => dst
  | dst, fuel + 1, i =>
    let dst :=
      { dst with
        data := dst.data.set i (src.data.getD i none),
        nextData := dst.nextData.set i (src.nextData.getD i 0),
        prevData := dst.prevData.set i (src.prevData.getD i 0),
        idData := dst.idData.set i (src.idData.getD i 0) }
    if i = src.lastIndex then dst
    else copyBucketSlots src dst fuel (src.nextData.getD i 0)

/-- The loop of `BucketStorage::deepCopy(other)`:
`for (auto it = --other.end(); it != other.begin(); it.shiftPrevBucket())`
deep-copy `*it.bucket` in front of the copy's block list, reconstructing
Incomplete List membership from fullness; fuel-bounded by the bucket count. -/
def deepCopyGo (other : BucketStorage α) : BucketStorage α → Nat → Iter → Option (BucketStorage α)
  | _, 0, _ => none
  | st, fuel + 1, it =>
    match beginIt other with
    | none => none
    | some ob =>
      if it = ob then
        some st
      else
        match getBucket other (some it.bucket) with
        | none => none
        | some srcB =>
          let cap := st.generalContent.blockCapacity
          let dst0 : Bucket α :=
            { id := srcB.id, next := st.first, prev := none,
              nextIncomplete := none, prevIncomplete := none,
              data := List.replicate cap none, size := srcB.size,
              firstIndex := srcB.firstIndex, lastIndex := srcB.lastIndex,
              nextData := List.replicate cap 0, prevData := List.replicate cap 0,
              idData := List.replicate cap 0 }
          let dst := copyBucketSlots srcB dst0 srcB.size srcB.firstIndex
          let (st1, a) := allocBucket st dst
          let st2 :=
            match dst.next with
            | some na => modifyBucket st1 na fun x => { x with prev := some a }
            | none => st1
          let st3 := { st2 with first := some a }
          let st4 :=
            if !dst.isFull cap then
              match st3.incomplete with
              | none => none
              | some ia =>
                let s := modifyBucket st3 ia fun x => { x with prevIncomplete := some a }
                let s := modifyBucket s a fun x => { x with nextIncomplete := some ia }
                some { s with incomplete := some a }
            else
              some st3
          match st4 with
          | none => none
          | some st5 =>
            match
              (if srcB.prev.isNone then
                some (⟨it.bucket, srcB.firstIndex⟩ : Iter)
              else
                match srcB.prev with
                | none => none
                | some pa =>
                  match getBucket other (some pa) with
                  | none => none
                  | some pb => some (⟨pa, pb.lastIndex⟩ : Iter)) with
            | none => none
            | some it' => deepCopyGo other st5 fuel it'

/-- `BucketStorage::BucketStorage(const BucketStorage&)`: copy the scalar
state, make a fresh sentinel, and run `deepCopy` when the source is
non-empty. -/
def copyCtor (other : BucketStorage α) : Option (BucketStorage α) :=
  let st : BucketStorage α :=
    { generalContent := other.generalContent, dataSize := other.dataSize,
      blocksCount := other.blocksCount, first := some 0, last := some 0,
      incomplete := some 0, heap := [some (Bucket.sentinel α)] }
  if other.empty then
    some st
  else
    match endIt other with
    | none => none
    | some e =>
      match iterPrev other e with
      | none => none
      | some it0 => deepCopyGo other st (other.blocksCount + 1) it0

/-- Collect the values visited by iterating from `it` to `end()`,
fuel-bounded. -/
def toListGo (st : BucketStorage α) : Nat → Iter → Option (List α)
  | 0, it =>
    match endIt st with
    | none => none
    | some e => if it = e then some [] else none
  | fuel + 1, it =>
    match endIt st with
    | none => none
    | some e =>
      if it = e then
        some []
      else
        match getBucket st (some it.bucket) with
        | none => none
        | some b =>
          match b.data.getD it.index none with
          | none => none
          | some v =>
            match iterNext st it with
            | none => none
            | some it' =>
              match toListGo st fuel it' with
              | none => none
              | some rest => some (v :: rest)

/-- The element sequence of the container, `begin()` to `end()`. -/
def toList (st : BucketStorage α) : Option (List α) :=
  match beginIt st with
  | none => none
  | some b => toListGo st st.dataSize b

/-- One `while`-loop iteration count of `get_to_distance` is bounded by
`|distance| + 1` when the walk stays in range; the loops themselves,
fuel-bounded.  The comparison `distance < -bucket->getSize()` is the C++
signed/unsigned comparison: false when the size is zero, the mathematical
comparison otherwise. -/
def getToDistanceGo (st : BucketStorage α) : Nat → Iter → Int → Option Iter
  | 0, _, _ => none
  | fuel + 1, it, d =>
    if 0 < d then
      match getBucket st (some it.bucket) with
      | none => none
      | some b =>
        if (b.size : Int) < d ∧ b.firstIndex = it.index then
          match b.next with
          | none => getToDistanceGo st fuel it (d - (b.size : Int))
          | some na =>
            match getBucket st (some na) with
            | none => none
            | some nb => getToDistanceGo st fuel ⟨na, nb.firstIndex⟩ (d - (b.size : Int))
        else
          match iterNext st it with
          | none => none
          | some it' => getToDistanceGo st fuel it' (d - 1)
    else if d < 0 then
      match getBucket st (some it.bucket) with
      | none => none
      | some b =>
        if 0 < b.size ∧ d < -(b.size : Int) ∧ b.lastIndex = it.index then
          match b.prev with
          | none => getToDistanceGo st fuel ⟨it.bucket, b.firstIndex⟩ (d + (b.size : Int))
          | some pa =>
            match getBucket st (some pa) with
            | none => none
            | some pb => getToDistanceGo st fuel ⟨pa, pb.lastIndex⟩ (d + (b.size : Int))
        else
          match iterPrev st it with
          | none => none
          | some it' => getToDistanceGo st fuel it' (d + 1)
    else
      some it

/-- `BucketStorage::get_to_distance(it, distance)`. -/
def get_to_distance (st : BucketStorage α) (it : Iter) (d : Int) : Option Iter :=
  getToDistanceGo st (d.natAbs + 1) it d

/-- `BucketStorage::shrink_to_fit()`: build a fresh container with the same
block capacity, move-insert every element in iteration order, then replace
`*this` with it by move assignment. -/
def shrinkToFit (st : BucketStorage α) : Option (BucketStorage α) :=
  match toList st with
  | none => none
  | some l =>
    match (mkWithCapacity st.generalContent.blockCapacity : Except Unit (BucketStorage α)) with
    | .error _ => none
    | .ok s0 => l.foldlM (fun s v => (insertOk s v).map Prod.fst) s0

end BucketStorage

end BucketModel

namespace BucketModel

open BucketStorage

/-! ## Concrete runs used by the scenario claims -/

/-- The §8 scenario: block capacity 2; insert A=10, B=20, C=30; erase B;
insert D=40.  Returns (iterator of B, iterator returned for D, `first`,
`blocksCount`, `size()`, the element sequence) of the final container. -/
def c7run : Option (Iter × Iter × Option Nat × Nat × Nat × Option (List Nat)) := do
  let s0 ← (mkWithCapacity 2 : Except Unit (BucketStorage Nat)).toOption
  let r1 ← insertOk s0 10
  let r2 ← insertOk r1.1 20
  let r3 ← insertOk r2.1 30
  let r4 ← erase r3.1 r2.2
  let r5 ← insertOk r4.1 40
  pure (r2.2, r5.2, r5.1.first, r5.1.blocksCount, r5.1.size, toList r5.1)

/-- A capacity-2 container holding the single element 10. -/
def oneElem : Option (BucketStorage Nat) := do
  let s0 ← (mkWithCapacity 2 : Except Unit (BucketStorage Nat)).toOption
  let r1 ← insertOk s0 10
  pure r1.1

/-- C7: with block capacity 2, after insert A, B, C (second bucket
allocated), erase B, insert D: D reuses B's freed slot `(bucket 1, slot 1)`
in the first real bucket, no third bucket is allocated (`blocksCount = 2`),
`size() = 3`, and iteration yields A, D, C. -/
theorem claim7_scenario :
    c7run = some (⟨1, 1⟩, ⟨1, 1⟩, some 1, 2, 3, some [10, 40, 30]) := by decide

/-- C1 counterexample run: on an empty capacity-2 container (whose `first`
is the sentinel at address 0), an insert whose value construction fails
leaves `first = some 1` pointing at the freshly deleted bucket (arena cell 1
is dead), so `begin()` dereferences a dangling pointer (`none`), while the
pre-call container had `first = some 0` and `begin() = some ⟨0, 0⟩`. -/
theorem claim1_bug :
    ((mkWithCapacity 2 : Except Unit (BucketStorage Nat)).toOption.bind insertFail).map
        (fun s => (s.first, s.heap.getD 1 none, beginIt s, s.last, s.size)) =
      some (some 1, none, none, some 0, 0) ∧
    (mkWithCapacity 2 : Except Unit (BucketStorage Nat)).toOption.map (fun s => (s.first, beginIt s)) =
      some (some 0, some ⟨0, 0⟩) := by
  constructor <;> decide

/-- C1, the non-empty side: when the container already holds an element, a
failing insert does unwind the freshly allocated bucket and leaves every
observable (first pointer, begin, element sequence, blocksCount, size)
as before the call. -/
theorem claim1_nonempty_ok :
    (oneElem.bind insertFail).map
        (fun s => (s.first, beginIt s, toList s, s.blocksCount, s.size)) =
      oneElem.map (fun s => (s.first, beginIt s, toList s, s.blocksCount, s.size)) := by
  decide

/-- C2 counterexample: move-construct from a one-element container.  The
moved-from source is left by `resetPointers()` with null `first`, `last` and
`incomplete`, a stale `blocksCount = 1`, and `begin()`, `end()` and a
subsequent `insert` all dereference null (`none`) - not a valid, reusable,
empty container with its own sentinel. -/
theorem claim2_bug :
    (oneElem.map (fun s => (moveCtor s).2)).map
        (fun s => (s.first, s.last, s.incomplete, s.size, s.blocksCount,
                   beginIt s, endIt s, insertOk s 99)) =
      some (none, none, none, 0, 1, none, none, none) := by decide

/-- C3 counterexample: copy-construct from a one-element container (its
first bucket has `firstIndex = lastIndex`).  The `deepCopy` loop stops
before copying the first bucket, so the copy reports `size() = 1` yet has no
real bucket (`first = last =` its sentinel at address 0) and iterating it
yields the empty sequence instead of `[10]`. -/
theorem claim3_bug :
    (oneElem.bind (fun s => (copyCtor s).map (fun c => (s, c)))).map
        (fun p => (toList p.1, p.1.size, toList p.2, p.2.size, p.2.blocksCount,
                   p.2.first, p.2.last)) =
      some (some [10], 1, some [], 1, 1, some 0, some 0) := by decide

/-- C9: constructing with an explicit block capacity fails exactly when the
capacity is zero (no container value escapes, the `Except` is an error), and
any positive capacity yields an empty container: `size() = 0`,
`empty()`, `begin() = end()`, and an empty element sequence. -/
theorem claim9_ctor (α : Type) (cap : Nat) :
    ((mkWithCapacity cap : Except Unit (BucketStorage α)) = Except.error () ↔ cap = 0) ∧
    (∀ st : BucketStorage α, mkWithCapacity cap = Except.ok st →
      st.size = 0 ∧ st.empty = true ∧ beginIt st = endIt st ∧ 0 < cap ∧
      toList st = some []) := by
  constructor
  · unfold mkWithCapacity
    by_cases h : cap = 0 <;> simp [h]
  · intro st h
    unfold mkWithCapacity at h
    by_cases hc : cap = 0
    · simp [hc] at h
    · simp only [hc, if_false] at h
      cases h
      refine ⟨rfl, rfl, rfl, Nat.pos_of_ne_zero hc, rfl⟩

/-- The container produced by `mkWithCapacity 2`. -/
def c9sample : BucketStorage Nat :=
  { generalContent := ⟨2, 0⟩, dataSize := 0, blocksCount := 0,
    first := some 0, last := some 0, incomplete := some 0,
    heap := [some (Bucket.sentinel Nat)] }

/-- Witness for C9 at capacity 2. -/
theorem claim9_ctor_witness :
    (mkWithCapacity 2 : Except Unit (BucketStorage Nat)) = Except.ok c9sample ∧
      (c9sample.size = 0 ∧ c9sample.empty = true ∧
        beginIt c9sample = endIt c9sample ∧ 0 < 2 ∧ toList c9sample = some []) :=
  ⟨rfl, (claim9_ctor Nat 2).2 c9sample rfl⟩

/-- C8: on a non-full bucket, `prepareInsert` returns slot 0 (setting
`firstIndex = lastIndex = 0`) when the bucket is empty; otherwise `size`
(the next never-used slot) when `nextOf[lastIndex] = firstIndex`; otherwise
`nextOf[lastIndex]`, the head of the recycled free-slot chain. -/
theorem claim8_prepareInsert {α : Type} (b : Bucket α) (cap : Nat)
    (hnotfull : b.size < cap) :
    (b.size = 0 → b.prepareInsert = (0, { b with firstIndex := 0, lastIndex := 0 })) ∧
    (b.size ≠ 0 → b.nextData.getD b.lastIndex 0 = b.firstIndex →
      b.prepareInsert = (b.size, b)) ∧
    (b.size ≠ 0 → b.nextData.getD b.lastIndex 0 ≠ b.firstIndex →
      b.prepareInsert = (b.nextData.getD b.lastIndex 0, b)) := by
  refine ⟨?_, ?_, ?_⟩
  · intro h0
    unfold Bucket.prepareInsert
    rw [if_pos h0]
  · intro h0 hrec
    unfold Bucket.prepareInsert
    rw [if_neg h0, if_pos hrec]
  · intro h0 hrec
    unfold Bucket.prepareInsert
    rw [if_neg h0, if_neg hrec]

/-- A concrete non-full bucket (one element at slot 0, capacity 2) used to
witness C8. -/
def c8bucket : Bucket Nat :=
  ⟨5, some 0, none, none, none, [some 7, none], 1, 0, 0, [0, 0], [0, 0], [3, 0]⟩

/-- Witness for C8: `c8bucket` is non-full (1 < 2) and its `prepareInsert`
satisfies the three branch descriptions. -/
theorem claim8_prepareInsert_witness :
    c8bucket.size < 2 ∧
      ((c8bucket.size = 0 →
          c8bucket.prepareInsert = (0, { c8bucket with firstIndex := 0, lastIndex := 0 })) ∧
        (c8bucket.size ≠ 0 → c8bucket.nextData.getD c8bucket.lastIndex 0 = c8bucket.firstIndex →
          c8bucket.prepareInsert = (c8bucket.size, c8bucket)) ∧
        (c8bucket.size ≠ 0 → c8bucket.nextData.getD c8bucket.lastIndex 0 ≠ c8bucket.firstIndex →
          c8bucket.prepareInsert = (c8bucket.nextData.getD c8bucket.lastIndex 0, c8bucket))) :=
  ⟨by decide, claim8_prepareInsert c8bucket 2 (by decide)⟩

/-! ## The structural invariant of the spec's data model (section 3)

`SInv st rs acts sa` states that `st` is a well-formed container whose real
buckets live at the addresses `rs` (in Block List order), whose sentinel
lives at `sa`, and whose `i`-th real bucket has `acts.getD i []` as its
active chain (the slot indices holding live elements, in chain order).  This
is the shallow form of the invariants stated in section 3 of the spec. -/

variable {α : Type}

/-- The bucket record at arena address `a` (a dead cell reads as a
sentinel-shaped default; well-formed states never read dead cells). -/
def bAt (st : BucketStorage α) (a : Nat) : Bucket α :=
  (st.heap.getD a none).getD (Bucket.sentinel α)

/-- Arena cell `a` holds a live bucket. -/
def live (st : BucketStorage α) (a : Nat) : Prop :=
  (st.heap.getD a none).isSome = true

instance {st : BucketStorage α} {a : Nat} : Decidable (live st a) :=
  inferInstanceAs (Decidable (_ = true))

theorem getBucket_live {st : BucketStorage α} {a : Nat} (h : live st a) :
    getBucket st (some a) = some (bAt st a) := by
  unfold live at h
  show st.heap.getD a none = some (bAt st a)
  unfold bAt
  cases hh : st.heap.getD a none with
  | none => rw [hh] at h; simp at h
  | some b => rfl

/-- Membership of an in-bounds `getD` read. -/
theorem getD_mem {l : List Nat} {i : Nat} (h : i < l.length) (d : Nat) :
    l.getD i d ∈ l := by
  rw [List.getD_eq_getElem l d h]
  exact List.getElem_mem h

/-- Distinctness of in-bounds `getD` reads of a `Nodup` list. -/
theorem nodup_getD_ne {l : List Nat} (hn : l.Nodup) {i j : Nat} (hi : i < l.length)
    (hj : j < l.length) (hij : i ≠ j) (d : Nat) : l.getD i d ≠ l.getD j d := by
  rw [List.getD_eq_getElem l d hi, List.getD_eq_getElem l d hj]
  intro he
  exact hij ((List.Nodup.getElem_inj_iff hn).mp he)

/-- Reading a mapped list with an in-bounds index. -/
theorem getD_map_lt {l : List Nat} {j : Nat} (h : j < l.length) (f : Nat → Iter) (d : Iter) :
    (l.map f).getD j d = f (l.getD j 0) := by
  rw [List.getD_eq_getElem (l.map f) d (by simpa using h), List.getElem_map,
    List.getD_eq_getElem l 0 h]

/-- The structural invariant (spec section 3). -/
structure SInv (st : BucketStorage α) (rs : List Nat) (acts : List (List Nat))
    (sa : Nat) : Prop where
  len_eq : rs.length = acts.length
  nodup : (rs ++ [sa]).Nodup
  live_all : ∀ a ∈ rs ++ [sa], live st a
  first_eq : st.first = (rs ++ [sa]).head?
  last_eq : st.last = some sa
  inc_some : st.incomplete.isSome = true
  sent_next : (bAt st sa).next = none
  sent_size : (bAt st sa).size = 0
  sent_first : (bAt st sa).firstIndex = 0
  sent_last : (bAt st sa).lastIndex = 0
  sent_id : (bAt st sa).id = sentinelId
  chain_next : ∀ i < rs.length,
    (bAt st (rs.getD i 0)).next = some ((rs ++ [sa]).getD (i + 1) 0)
  chain_prev : ∀ i < rs.length,
    (bAt st ((rs ++ [sa]).getD (i + 1) 0)).prev = some (rs.getD i 0)
  head_prev : (bAt st ((rs ++ [sa]).getD 0 0)).prev = none
  act_ne : ∀ i < rs.length, acts.getD i [] ≠ []
  act_nodup : ∀ i < rs.length, (acts.getD i []).Nodup
  b_size : ∀ i < rs.length, (bAt st (rs.getD i 0)).size = (acts.getD i []).length
  b_first : ∀ i < rs.length, (bAt st (rs.getD i 0)).firstIndex = (acts.getD i []).getD 0 0
  b_last : ∀ i < rs.length, (bAt st (rs.getD i 0)).lastIndex =
    (acts.getD i []).getD ((acts.getD i []).length - 1) 0
  b_next : ∀ i < rs.length, ∀ j < (acts.getD i []).length - 1,
    (bAt st (rs.getD i 0)).nextData.getD ((acts.getD i []).getD j 0) 0 =
      (acts.getD i []).getD (j + 1) 0
  b_prev : ∀ i < rs.length, ∀ j < (acts.getD i []).length - 1,
    (bAt st (rs.getD i 0)).prevData.getD ((acts.getD i []).getD (j + 1) 0) 0 =
      (acts.getD i []).getD j 0
  id_mono : ∀ j < rs.length, ∀ i < j,
    (bAt st (rs.getD i 0)).id < (bAt st (rs.getD j 0)).id
  id_lt_sent : ∀ i < rs.length, (bAt st (rs.getD i 0)).id < sentinelId
  slot_id_mono : ∀ i < rs.length, ∀ k < (acts.getD i []).length, ∀ j < k,
    (bAt st (rs.getD i 0)).idData.getD ((acts.getD i []).getD j 0) 0 <
      (bAt st (rs.getD i 0)).idData.getD ((acts.getD i []).getD k 0) 0

/-- The iterator sequence determined by the real-bucket addresses `rs`, the
active chains `acts` and the sentinel address `sa`: every (bucket, active
slot) pair in logical order, followed by the `end()` iterator. -/
def iterSeq : List Nat → List (List Nat) → Nat → List Iter
  | _, [], sa => [⟨sa, 0⟩]
  | [], _ :: _, sa => [⟨sa, 0⟩]
  | a :: rs, act :: acts, sa => act.map (fun s => ⟨a, s⟩) ++ iterSeq rs acts sa

/-- The number of elements described by `acts`. -/
def actsLen (acts : List (List Nat)) : Nat := (acts.map List.length).sum

/-- Start position of bucket `i` in the iterator sequence. -/
def posStart (acts : List (List Nat)) (i : Nat) : Nat := actsLen (acts.take i)

theorem actsLen_cons (act : List Nat) (acts : List (List Nat)) :
    actsLen (act :: acts) = act.length + actsLen acts := by
  simp [actsLen]

theorem posStart_zero (acts : List (List Nat)) : posStart acts 0 = 0 := by
  simp [posStart, actsLen]

theorem posStart_succ (act : List Nat) (acts : List (List Nat)) (i : Nat) :
    posStart (act :: acts) (i + 1) = act.length + posStart acts i := by
  simp [posStart, actsLen_cons]

theorem iterSeq_length {rs : List Nat} {acts : List (List Nat)} {sa : Nat}
    (h : rs.length = acts.length) :
    (iterSeq rs acts sa).length = actsLen acts + 1 := by
  induction acts generalizing rs with
  | nil =>
    cases rs with
    | nil => simp [iterSeq, actsLen]
    | cons a rs => simp at h
  | cons act acts ih =>
    cases rs with
    | nil => simp at h
    | cons a rs =>
      simp only [iterSeq, List.length_append, List.length_map, actsLen_cons]
      rw [ih (by simpa using h)]
      omega

theorem iterSeq_getD_elem {rs : List Nat} {acts : List (List Nat)} {sa : Nat}
    (h : rs.length = acts.length) {i j : Nat} (hi : i < rs.length)
    (hj : j < (acts.getD i []).length) :
    (iterSeq rs acts sa).getD (posStart acts i + j) ⟨0, 0⟩ =
      ⟨rs.getD i 0, (acts.getD i []).getD j 0⟩ := by
  induction acts generalizing rs i with
  | nil =>
    cases rs with
    | nil => simp at hi
    | cons a rs => simp at h
  | cons act acts ih =>
    cases rs with
    | nil => simp at h
    | cons a rs =>
      cases i with
      | zero =>
        rw [posStart_zero, Nat.zero_add]
        simp only [List.getD_cons_zero] at hj ⊢
        show (act.map (fun s => (⟨a, s⟩ : Iter)) ++ iterSeq rs acts sa).getD j ⟨0, 0⟩ = _
        rw [List.getD_append _ _ _ _ (by simpa using hj), getD_map_lt hj]
      | succ i =>
        rw [posStart_succ]
        simp only [List.getD_cons_succ] at hj ⊢
        show (act.map (fun s => (⟨a, s⟩ : Iter)) ++ iterSeq rs acts sa).getD
          (act.length + posStart acts i + j) ⟨0, 0⟩ = _
        rw [Nat.add_assoc, List.getD_append_right _ _ _ _ (by simp)]
        simp only [List.length_map, Nat.add_sub_cancel_left]
        exact ih (by simpa using h) (by simpa using hi) hj

theorem iterSeq_getD_last {rs : List Nat} {acts : List (List Nat)} {sa : Nat}
    (h : rs.length = acts.length) :
    (iterSeq rs acts sa).getD (actsLen acts) ⟨0, 0⟩ = ⟨sa, 0⟩ := by
  induction acts generalizing rs with
  | nil =>
    cases rs with
    | nil => simp [iterSeq, actsLen]
    | cons a rs => simp at h
  | cons act acts ih =>
    cases rs with
    | nil => simp at h
    | cons a rs =>
      rw [actsLen_cons]
      show (act.map (fun s => (⟨a, s⟩ : Iter)) ++ iterSeq rs acts sa).getD
        (act.length + actsLen acts) ⟨0, 0⟩ = _
      rw [List.getD_append_right _ _ _ _ (by simp)]
      simp only [List.length_map, Nat.add_sub_cancel_left]
      exact ih (by simpa using h)

theorem pos_decompose {rs : List Nat} {acts : List (List Nat)}
    (h : rs.length = acts.length) {p : Nat} (hp : p < actsLen acts) :
    ∃ i j, i < rs.length ∧ j < (acts.getD i []).length ∧ p = posStart acts i + j := by
  induction acts generalizing rs p with
  | nil => simp [actsLen] at hp
  | cons act acts ih =>
    cases rs with
    | nil => simp at h
    | cons a rs =>
      rw [actsLen_cons] at hp
      by_cases hlt : p < act.length
      · exact ⟨0, p, by simp, by simpa using hlt, by rw [posStart_zero, Nat.zero_add]⟩
      · obtain ⟨i, j, hi, hj, he⟩ := @ih rs (by simpa using h) (p - act.length) (by omega)
        exact ⟨i + 1, j, by simpa using hi, by simpa using hj, by rw [posStart_succ]; omega⟩

theorem posStart_add_lt {acts : List (List Nat)} {i j : Nat} (hi : i < acts.length)
    (hj : j < (acts.getD i []).length) :
    posStart acts i + j < actsLen acts := by
  induction acts generalizing i with
  | nil => simp at hi
  | cons act acts ih =>
    cases i with
    | zero =>
      rw [posStart_zero, actsLen_cons]
      simp only [List.getD_cons_zero] at hj
      omega
    | succ i =>
      rw [posStart_succ, actsLen_cons]
      simp only [List.getD_cons_succ] at hj
      have := ih (by simpa using hi) hj
      omega

theorem posStart_last_bucket {acts : List (List Nat)} {i : Nat} (hi : i < acts.length)
    (hne : acts.getD i [] ≠ []) :
    posStart acts i + ((acts.getD i []).length - 1) + 1 = posStart acts (i + 1) := by
  induction acts generalizing i with
  | nil => simp at hi
  | cons act acts ih =>
    cases i with
    | zero =>
      rw [posStart_zero, posStart_succ, posStart_zero]
      simp only [List.getD_cons_zero] at hne ⊢
      have : 0 < act.length := List.length_pos.mpr hne
      omega
    | succ i =>
      rw [posStart_succ, posStart_succ]
      simp only [List.getD_cons_succ] at hne ⊢
      have := ih (by simpa using hi) hne
      omega

theorem posStart_full {acts : List (List Nat)} :
    posStart acts acts.length = actsLen acts := by
  simp [posStart]

/-! ### Single-step lemmas under `SInv` -/

theorem sinv_live_r {st : BucketStorage α} {rs : List Nat} {acts : List (List Nat)} {sa : Nat}
    (h : SInv st rs acts sa) {i : Nat} (hi : i < rs.length) :
    live st (rs.getD i 0) :=
  h.live_all _ (List.mem_append_left _ (getD_mem hi 0))

theorem sinv_live_sa {st : BucketStorage α} {rs : List Nat} {acts : List (List Nat)} {sa : Nat}
    (h : SInv st rs acts sa) : live st sa :=
  h.live_all _ (List.mem_append_right _ (List.mem_singleton_self sa))

/-- `(rs ++ [sa]).getD i 0` for `i < rs.length` is the `i`-th real bucket. -/
theorem all_getD_lt {rs : List Nat} {sa : Nat} {i : Nat} (hi : i < rs.length) :
    (rs ++ [sa]).getD i 0 = rs.getD i 0 :=
  List.getD_append _ _ _ _ hi

/-- `(rs ++ [sa]).getD rs.length 0` is the sentinel. -/
theorem all_getD_len {rs : List Nat} {sa : Nat} :
    (rs ++ [sa]).getD rs.length 0 = sa := by
  rw [List.getD_append_right _ _ _ _ (Nat.le_refl _)]
  simp

theorem sinv_live_all_getD {st : BucketStorage α} {rs : List Nat} {acts : List (List Nat)}
    {sa : Nat} (h : SInv st rs acts sa) {i : Nat} (hi : i < (rs ++ [sa]).length) :
    live st ((rs ++ [sa]).getD i 0) :=
  h.live_all _ (getD_mem hi 0)

/-- One forward step inside bucket `i`, from chain position `j` to `j + 1`. -/
theorem stepNext_in {st : BucketStorage α} {rs : List Nat} {acts : List (List Nat)} {sa : Nat}
    (h : SInv st rs acts sa) {i j : Nat} (hi : i < rs.length)
    (hj : j + 1 < (acts.getD i []).length) :
    iterNext st ⟨rs.getD i 0, (acts.getD i []).getD j 0⟩ =
      some ⟨rs.getD i 0, (acts.getD i []).getD (j + 1) 0⟩ := by
  have hlive : live st (rs.getD i 0) := sinv_live_r h hi
  have hcond : (acts.getD i []).getD j 0 ≠ (bAt st (rs.getD i 0)).lastIndex := by
    rw [h.b_last i hi]
    exact nodup_getD_ne (h.act_nodup i hi) (by omega) (by omega) (by omega) 0
  simp only [iterNext, getBucket_live hlive]
  rw [if_pos hcond, h.b_next i hi j (by omega)]

/-- One forward step off the last chain slot of bucket `i`, onto the next
bucket's first slot (the sentinel's slot 0 for the last real bucket). -/
theorem stepNext_out {st : BucketStorage α} {rs : List Nat} {acts : List (List Nat)} {sa : Nat}
    (h : SInv st rs acts sa) {i : Nat} (hi : i < rs.length) :
    iterNext st ⟨rs.getD i 0, (acts.getD i []).getD ((acts.getD i []).length - 1) 0⟩ =
      some (if hlt : i + 1 < rs.length then
              ⟨rs.getD (i + 1) 0, (acts.getD (i + 1) []).getD 0 0⟩
            else ⟨sa, 0⟩) := by
  have hlive : live st (rs.getD i 0) := sinv_live_r h hi
  have hnext : (bAt st (rs.getD i 0)).next = some ((rs ++ [sa]).getD (i + 1) 0) :=
    h.chain_next i hi
  have hlive2 : live st ((rs ++ [sa]).getD (i + 1) 0) :=
    sinv_live_all_getD h (by simp; omega)
  simp only [iterNext, getBucket_live hlive]
  rw [if_neg (by rw [h.b_last i hi]; simp), hnext]
  simp only [getBucket_live hlive2]
  by_cases hlt : i + 1 < rs.length
  · rw [dif_pos hlt, all_getD_lt hlt, h.b_first (i + 1) hlt]
  · have : i + 1 = rs.length := by omega
    rw [dif_neg hlt, this, all_getD_len, h.sent_first]

/-- One backward step inside bucket `i`, from chain position `j + 1` to `j`. -/
theorem stepPrev_in {st : BucketStorage α} {rs : List Nat} {acts : List (List Nat)} {sa : Nat}
    (h : SInv st rs acts sa) {i j : Nat} (hi : i < rs.length)
    (hj : j + 1 < (acts.getD i []).length) :
    iterPrev st ⟨rs.getD i 0, (acts.getD i []).getD (j + 1) 0⟩ =
      some ⟨rs.getD i 0, (acts.getD i []).getD j 0⟩ := by
  have hlive : live st (rs.getD i 0) := sinv_live_r h hi
  have hcond : (acts.getD i []).getD (j + 1) 0 ≠ (bAt st (rs.getD i 0)).firstIndex := by
    rw [h.b_first i hi]
    exact nodup_getD_ne (h.act_nodup i hi) (by omega) (by omega) (by omega) 0
  simp only [iterPrev, getBucket_live hlive]
  rw [if_pos hcond, h.b_prev i hi j (by omega)]

/-- One backward step off the first chain slot of bucket `i + 1` (or off the
sentinel's slot 0), onto bucket `i`'s last chain slot. -/
theorem stepPrev_out {st : BucketStorage α} {rs : List Nat} {acts : List (List Nat)} {sa : Nat}
    (h : SInv st rs acts sa) {i : Nat} (hi : i < rs.length) :
    iterPrev st (if hlt : i + 1 < rs.length then
                   ⟨rs.getD (i + 1) 0, (acts.getD (i + 1) []).getD 0 0⟩
                 else ⟨sa, 0⟩) =
      some ⟨rs.getD i 0, (acts.getD i []).getD ((acts.getD i []).length - 1) 0⟩ := by
  have hprev : (bAt st ((rs ++ [sa]).getD (i + 1) 0)).prev = some (rs.getD i 0) :=
    h.chain_prev i hi
  have hliveb : live st ((rs ++ [sa]).getD (i + 1) 0) :=
    sinv_live_all_getD h (by simp; omega)
  have hlivei : live st (rs.getD i 0) := sinv_live_r h hi
  by_cases hlt : i + 1 < rs.length
  · rw [dif_pos hlt]
    rw [all_getD_lt hlt] at hprev hliveb
    simp only [iterPrev, getBucket_live hliveb]
    rw [if_neg (by rw [h.b_first (i + 1) hlt]; simp), hprev]
    simp only [getBucket_live hlivei]
    rw [h.b_last i hi]
  · have hieq : i + 1 = rs.length := by omega
    rw [dif_neg hlt]
    rw [hieq, all_getD_len] at hprev hliveb
    simp only [iterPrev, getBucket_live hliveb]
    rw [if_neg (by rw [h.sent_first]; simp), hprev]
    simp only [getBucket_live hlivei]
    rw [h.b_last i hi]

/-! ### The global traversal theorem -/

/-- In a well-formed container, `operator++` maps the `p`-th iterator of the
logical sequence to the `(p+1)`-st, and `operator--` maps it back. -/
theorem seq_step {st : BucketStorage α} {rs : List Nat} {acts : List (List Nat)} {sa : Nat}
    (h : SInv st rs acts sa) {p : Nat} (hp : p < actsLen acts) :
    iterNext st ((iterSeq rs acts sa).getD p ⟨0, 0⟩) =
        some ((iterSeq rs acts sa).getD (p + 1) ⟨0, 0⟩) ∧
      iterPrev st ((iterSeq rs acts sa).getD (p + 1) ⟨0, 0⟩) =
        some ((iterSeq rs acts sa).getD p ⟨0, 0⟩) := by
  obtain ⟨i, j, hi, hj, hpe⟩ := pos_decompose h.len_eq hp
  subst hpe
  rw [iterSeq_getD_elem h.len_eq hi hj]
  by_cases hj1 : j + 1 < (acts.getD i []).length
  · rw [show posStart acts i + j + 1 = posStart acts i + (j + 1) by omega,
      iterSeq_getD_elem h.len_eq hi hj1]
    exact ⟨stepNext_in h hi hj1, stepPrev_in h hi hj1⟩
  · have hjl : j = (acts.getD i []).length - 1 := by omega
    have hplus : posStart acts i + j + 1 = posStart acts (i + 1) := by
      rw [hjl]
      exact posStart_last_bucket (h.len_eq ▸ hi) (h.act_ne i hi)
    rw [hplus, hjl]
    by_cases hlt : i + 1 < rs.length
    · have h0 : 0 < (acts.getD (i + 1) []).length :=
        List.length_pos.mpr (h.act_ne (i + 1) hlt)
      rw [show posStart acts (i + 1) = posStart acts (i + 1) + 0 by omega,
        iterSeq_getD_elem h.len_eq hlt h0]
      refine ⟨?_, ?_⟩
      · have := stepNext_out h hi
        rwa [dif_pos hlt] at this
      · have := stepPrev_out h hi
        rwa [dif_pos hlt] at this
    · have hieq : i + 1 = rs.length := by omega
      have : posStart acts (i + 1) = actsLen acts := by
        rw [hieq, h.len_eq, posStart_full]
      rw [this, iterSeq_getD_last h.len_eq]
      refine ⟨?_, ?_⟩
      · have := stepNext_out h hi
        rwa [dif_neg hlt] at this
      · have := stepPrev_out h hi
        rwa [dif_neg hlt] at this

/-- `begin()` is the first iterator of the logical sequence. -/
theorem begin_eq_seq {st : BucketStorage α} {rs : List Nat} {acts : List (List Nat)} {sa : Nat}
    (h : SInv st rs acts sa) :
    beginIt st = some ((iterSeq rs acts sa).getD 0 ⟨0, 0⟩) := by
  cases rs with
  | nil =>
    have hacts : acts = [] := List.length_eq_zero.mp (by simpa using h.len_eq.symm)
    subst hacts
    have hfirst : st.first = some sa := by rw [h.first_eq]; rfl
    have hlive : live st sa := sinv_live_sa h
    simp only [beginIt, hfirst, getBucket_live hlive, h.sent_first]
    rfl
  | cons a rs0 =>
    have h0 : 0 < (a :: rs0).length := by simp
    have hfirst : st.first = some ((a :: rs0).getD 0 0) := by rw [h.first_eq]; rfl
    have hlive : live st ((a :: rs0).getD 0 0) := sinv_live_r h h0
    have hne : 0 < (acts.getD 0 []).length := List.length_pos.mpr (h.act_ne 0 h0)
    have helem : (iterSeq (a :: rs0) acts sa).getD (posStart acts 0 + 0) ⟨0, 0⟩ =
        ⟨(a :: rs0).getD 0 0, (acts.getD 0 []).getD 0 0⟩ :=
      iterSeq_getD_elem h.len_eq h0 hne
    rw [posStart_zero, Nat.zero_add] at helem
    rw [helem]
    simp only [beginIt, hfirst, getBucket_live hlive, h.b_first 0 h0]

/-- `end()` is the sentinel iterator, the last entry of the logical
sequence. -/
theorem end_eq_seq {st : BucketStorage α} {rs : List Nat} {acts : List (List Nat)} {sa : Nat}
    (h : SInv st rs acts sa) :
    endIt st = some ((iterSeq rs acts sa).getD (actsLen acts) ⟨0, 0⟩) := by
  simp only [endIt, h.last_eq, iterSeq_getD_last h.len_eq]

/-! ### Ordering along the traversal (claim C5) -/

theorem iterLt_live {st : BucketStorage α} {xb xi yb yi : Nat} (hx : live st xb)
    (hy : live st yb) :
    iterLt st ⟨xb, xi⟩ ⟨yb, yi⟩ = some (
      if (bAt st xb).id = (bAt st yb).id then
        !(bAt st xb).isEnd &&
          decide ((bAt st xb).idData.getD xi 0 < (bAt st yb).idData.getD yi 0)
      else
        decide ((bAt st xb).id < (bAt st yb).id)) := by
  simp only [iterLt, getBucket_live hx, getBucket_live hy]
  split <;> rfl

theorem iterGt_live {st : BucketStorage α} {xb xi yb yi : Nat} (hx : live st xb)
    (hy : live st yb) :
    iterGt st ⟨xb, xi⟩ ⟨yb, yi⟩ = some (
      if (bAt st xb).id = (bAt st yb).id then
        !(bAt st xb).isEnd &&
          decide ((bAt st yb).idData.getD yi 0 < (bAt st xb).idData.getD xi 0)
      else
        decide ((bAt st yb).id < (bAt st xb).id)) := by
  simp only [iterGt, getBucket_live hx, getBucket_live hy]
  split <;> rfl

/-- A real bucket of a well-formed container is not the `end()` bucket. -/
theorem sinv_not_end {st : BucketStorage α} {rs : List Nat} {acts : List (List Nat)} {sa : Nat}
    (h : SInv st rs acts sa) {i : Nat} (hi : i < rs.length) :
    (bAt st (rs.getD i 0)).isEnd = false := by
  unfold Bucket.isEnd
  rw [h.chain_next i hi]
  rfl

/-- Comparing an element iterator of bucket `i` with one of bucket `k`,
`i < k`: the bucket ids decide, and the comparison is `true`. -/
theorem lt_cross_bucket {st : BucketStorage α} {rs : List Nat} {acts : List (List Nat)} {sa : Nat}
    (h : SInv st rs acts sa) {i k : Nat} (hik : i < k) (hk : k < rs.length)
    (x y : Nat) :
    iterLt st ⟨rs.getD i 0, x⟩ ⟨rs.getD k 0, y⟩ = some true := by
  have hi : i < rs.length := by omega
  rw [iterLt_live (sinv_live_r h hi) (sinv_live_r h hk)]
  have hlt := h.id_mono k hk i hik
  rw [if_neg (by omega), decide_eq_true hlt]

/-- Comparing an element iterator with the sentinel (`end()`): `true`. -/
theorem lt_vs_end {st : BucketStorage α} {rs : List Nat} {acts : List (List Nat)} {sa : Nat}
    (h : SInv st rs acts sa) {i : Nat} (hi : i < rs.length) (x y : Nat) :
    iterLt st ⟨rs.getD i 0, x⟩ ⟨sa, y⟩ = some true := by
  rw [iterLt_live (sinv_live_r h hi) (sinv_live_sa h)]
  have hlt := h.id_lt_sent i hi
  rw [h.sent_id, if_neg (by omega), decide_eq_true hlt]

/-- Same-bucket comparison along the chain: slot insertion ids decide. -/
theorem lt_same_bucket {st : BucketStorage α} {rs : List Nat} {acts : List (List Nat)} {sa : Nat}
    (h : SInv st rs acts sa) {i j k : Nat} (hi : i < rs.length) (hjk : j < k)
    (hk : k < (acts.getD i []).length) :
    iterLt st ⟨rs.getD i 0, (acts.getD i []).getD j 0⟩
        ⟨rs.getD i 0, (acts.getD i []).getD k 0⟩ = some true := by
  rw [iterLt_live (sinv_live_r h hi) (sinv_live_r h hi)]
  rw [if_pos rfl, sinv_not_end h hi, decide_eq_true (h.slot_id_mono i hi k hk j hjk)]
  rfl

/-- C5 amended, part of the development: along the logical sequence of a
well-formed container every consecutive pair compares `<` as `true`; every
element iterator is `<` `end()` and `end()` is `>` it; and `end()` is `<`
nothing. -/
theorem seq_lt_step {st : BucketStorage α} {rs : List Nat} {acts : List (List Nat)} {sa : Nat}
    (h : SInv st rs acts sa) {p : Nat} (hp : p < actsLen acts) :
    iterLt st ((iterSeq rs acts sa).getD p ⟨0, 0⟩)
      ((iterSeq rs acts sa).getD (p + 1) ⟨0, 0⟩) = some true := by
  obtain ⟨i, j, hi, hj, hpe⟩ := pos_decompose h.len_eq hp
  subst hpe
  rw [iterSeq_getD_elem h.len_eq hi hj]
  by_cases hj1 : j + 1 < (acts.getD i []).length
  · rw [show posStart acts i + j + 1 = posStart acts i + (j + 1) by omega,
      iterSeq_getD_elem h.len_eq hi hj1]
    exact lt_same_bucket h hi (by omega) hj1
  · have hjl : j = (acts.getD i []).length - 1 := by omega
    have hplus : posStart acts i + j + 1 = posStart acts (i + 1) := by
      rw [hjl]
      exact posStart_last_bucket (h.len_eq ▸ hi) (h.act_ne i hi)
    rw [hplus]
    by_cases hlt : i + 1 < rs.length
    · have h0 : 0 < (acts.getD (i + 1) []).length :=
        List.length_pos.mpr (h.act_ne (i + 1) hlt)
      rw [show posStart acts (i + 1) = posStart acts (i + 1) + 0 by omega,
        iterSeq_getD_elem h.len_eq hlt h0]
      exact lt_cross_bucket h (by omega) hlt _ _
    · have : posStart acts (i + 1) = actsLen acts := by
        rw [show i + 1 = rs.length by omega, h.len_eq, posStart_full]
      rw [this, iterSeq_getD_last h.len_eq]
      exact lt_vs_end h hi _ _

theorem seq_lt_end {st : BucketStorage α} {rs : List Nat} {acts : List (List Nat)} {sa : Nat}
    (h : SInv st rs acts sa) {p : Nat} (hp : p < actsLen acts) :
    iterLt st ((iterSeq rs acts sa).getD p ⟨0, 0⟩) ⟨sa, 0⟩ = some true ∧
      iterGt st ⟨sa, 0⟩ ((iterSeq rs acts sa).getD p ⟨0, 0⟩) = some true := by
  obtain ⟨i, j, hi, hj, hpe⟩ := pos_decompose h.len_eq hp
  subst hpe
  rw [iterSeq_getD_elem h.len_eq hi hj]
  refine ⟨lt_vs_end h hi _ _, ?_⟩
  rw [iterGt_live (sinv_live_sa h) (sinv_live_r h hi)]
  have hlt := h.id_lt_sent i hi
  rw [h.sent_id, if_neg (by omega), decide_eq_true hlt]

theorem end_lt_none {st : BucketStorage α} {rs : List Nat} {acts : List (List Nat)} {sa : Nat}
    (h : SInv st rs acts sa) {p : Nat} (hp : p ≤ actsLen acts) :
    iterLt st ⟨sa, 0⟩ ((iterSeq rs acts sa).getD p ⟨0, 0⟩) = some false := by
  by_cases hlt : p < actsLen acts
  · obtain ⟨i, j, hi, hj, hpe⟩ := pos_decompose h.len_eq hlt
    subst hpe
    rw [iterSeq_getD_elem h.len_eq hi hj]
    rw [iterLt_live (sinv_live_sa h) (sinv_live_r h hi)]
    have hid := h.id_lt_sent i hi
    rw [h.sent_id, if_neg (by omega), decide_eq_false (by omega)]
  · have hpe : p = actsLen acts := by omega
    subst hpe
    rw [iterSeq_getD_last h.len_eq]
    rw [iterLt_live (sinv_live_sa h) (sinv_live_sa h)]
    rw [if_pos rfl]
    unfold Bucket.isEnd
    rw [h.sent_next]
    rfl

/-! ### A concrete well-formed container (the final state of the C7
scenario), used to witness the invariant-conditioned claims -/

/-- The container of the C7 scenario after insert A, B, C, erase B, insert D
(capacity 2): real buckets at arena cells 1 and 2, sentinel at 0, elements
A=10 (bucket 1 slot 0), D=40 (bucket 1 slot 1), C=30 (bucket 2 slot 0). -/
def c7final : BucketStorage Nat :=
  { generalContent := ⟨2, 6⟩, dataSize := 3, blocksCount := 2,
    first := some 1, last := some 0, incomplete := some 2,
    heap :=
      [some { id := sentinelId, next := none, prev := some 2,
              nextIncomplete := none, prevIncomplete := some 2,
              data := [], size := 0, firstIndex := 0, lastIndex := 0,
              nextData := [], prevData := [], idData := [] },
       some { id := 0, next := some 2, prev := none,
              nextIncomplete := none, prevIncomplete := none,
              data := [some 10, some 40], size := 2, firstIndex := 0, lastIndex := 1,
              nextData := [1, 0], prevData := [1, 0], idData := [1, 5] },
       some { id := 3, next := some 0, prev := some 1,
              nextIncomplete := some 0, prevIncomplete := none,
              data := [some 30, none], size := 1, firstIndex := 0, lastIndex := 0,
              nextData := [0, 0], prevData := [0, 0], idData := [4, 0] }] }

/-- `c7final` satisfies the structural invariant with buckets `[1, 2]`,
active chains `[[0, 1], [0]]` and sentinel `0`. -/
theorem c7final_inv : SInv c7final [1, 2] [[0, 1], [0]] 0 := by
  constructor <;> decide

/-! ### Field-stability of `Bucket::erase` (it rewrites only the chain
arrays, sizes and end indices, never the inter-bucket links) -/

theorem Bucket.erase_next (b : Bucket α) (i : Nat) : (b.erase i).next = b.next := by
  unfold Bucket.erase
  dsimp only
  split
  · rfl
  · split <;> rfl

theorem Bucket.erase_prev (b : Bucket α) (i : Nat) : (b.erase i).prev = b.prev := by
  unfold Bucket.erase
  dsimp only
  split
  · rfl
  · split <;> rfl

/-- If the one-step successor exists, the bucket is live, the erased bucket
still has a Block List successor and the incomplete pointer is non-null,
then `BucketStorage::erase` succeeds and returns exactly the precomputed
successor iterator. -/
theorem erase_some {st : BucketStorage α} {it temp : Iter} {b0 : Bucket α}
    (h1 : iterNext st it = some temp)
    (h2 : getBucket st (some it.bucket) = some b0)
    (h3 : (b0.erase it.index).next.isSome = true)
    (h4 : st.incomplete.isSome = true) :
    ∃ st', erase st it = some (st', temp) := by
  unfold erase
  rw [h1, h2]
  dsimp only
  split
  · cases hnx : (b0.erase it.index).next with
    | none => rw [hnx] at h3; simp at h3
    | some na =>
      exact ⟨_, rfl⟩
  · split
    · cases hinc : st.incomplete with
      | none => rw [hinc] at h4; simp at h4
      | some ia =>
        have hseteq : (setBucket st it.bucket (b0.erase it.index)).incomplete = some ia := hinc
        rw [hseteq]
        exact ⟨_, rfl⟩
    · exact ⟨_, rfl⟩

/-! ### Claims C4 and C5 -/

/-- C4: in a well-formed container (spec section 3 invariant `SInv`), for
every valid iterator - the `p`-th entry of the logical sequence, referencing
an element - `erase` succeeds and returns exactly the logical successor of
that iterator in the sequence as it was immediately before the erase
(`end()` when it referenced the last element), including when the erase
empties and destroys the bucket. -/
theorem claim4_erase_successor {st : BucketStorage α} {rs : List Nat}
    {acts : List (List Nat)} {sa : Nat} (h : SInv st rs acts sa) {p : Nat}
    (hp : p < actsLen acts) :
    ∃ st', erase st ((iterSeq rs acts sa).getD p ⟨0, 0⟩) =
      some (st', (iterSeq rs acts sa).getD (p + 1) ⟨0, 0⟩) := by
  obtain ⟨i, j, hi, hj, hpe⟩ := pos_decompose h.len_eq hp
  have hstep := (seq_step h hp).1
  have hbeq : ((iterSeq rs acts sa).getD p ⟨0, 0⟩).bucket = rs.getD i 0 := by
    rw [hpe, iterSeq_getD_elem h.len_eq hi hj]
  have hget : getBucket st (some ((iterSeq rs acts sa).getD p ⟨0, 0⟩).bucket) =
      some (bAt st (rs.getD i 0)) := by
    rw [hbeq]
    exact getBucket_live (sinv_live_r h hi)
  have hnext : ((bAt st (rs.getD i 0)).erase
      ((iterSeq rs acts sa).getD p ⟨0, 0⟩).index).next.isSome = true := by
    rw [Bucket.erase_next, h.chain_next i hi]
    rfl
  exact erase_some hstep hget hnext h.inc_some

/-- Witness for C4 at the concrete container `c7final`, erasing the first
element. -/
theorem claim4_erase_successor_witness :
    0 < actsLen [[0, 1], [0]] ∧
      ∃ st', erase c7final ((iterSeq [1, 2] [[0, 1], [0]] 0).getD 0 ⟨0, 0⟩) =
        some (st', (iterSeq [1, 2] [[0, 1], [0]] 0).getD 1 ⟨0, 0⟩) :=
  ⟨by decide, claim4_erase_successor c7final_inv (by decide)⟩

/-- C5 (amended): in a well-formed container (spec section 3 invariant
`SInv`), iterating forward from `begin()` compares each iterator with its
successor by `<` as `true` at every step; every element iterator is `<`
`end()` and `end()` is `>` it; and the `end()`/sentinel iterator is not `<`
any iterator of the sequence (itself included). -/
theorem claim5_strict_order {st : BucketStorage α} {rs : List Nat}
    {acts : List (List Nat)} {sa : Nat} (h : SInv st rs acts sa) :
    (∀ p < actsLen acts,
      iterLt st ((iterSeq rs acts sa).getD p ⟨0, 0⟩)
        ((iterSeq rs acts sa).getD (p + 1) ⟨0, 0⟩) = some true) ∧
    (∀ p < actsLen acts,
      iterLt st ((iterSeq rs acts sa).getD p ⟨0, 0⟩) ⟨sa, 0⟩ = some true ∧
      iterGt st ⟨sa, 0⟩ ((iterSeq rs acts sa).getD p ⟨0, 0⟩) = some true) ∧
    (∀ p ≤ actsLen acts,
      iterLt st ⟨sa, 0⟩ ((iterSeq rs acts sa).getD p ⟨0, 0⟩) = some false) ∧
    endIt st = some ⟨sa, 0⟩ ∧
    beginIt st = some ((iterSeq rs acts sa).getD 0 ⟨0, 0⟩) :=
  ⟨fun _ hp => seq_lt_step h hp, fun _ hp => seq_lt_end h hp,
    fun _ hp => end_lt_none h hp, by simp [endIt, h.last_eq], begin_eq_seq h⟩

/-- Witness for C5 at the concrete container `c7final`: the first two
iterators of the sequence compare `<` as `true`. -/
theorem claim5_strict_order_witness :
    0 < actsLen [[0, 1], [0]] ∧
      iterLt c7final ((iterSeq [1, 2] [[0, 1], [0]] 0).getD 0 ⟨0, 0⟩)
        ((iterSeq [1, 2] [[0, 1], [0]] 0).getD 1 ⟨0, 0⟩) = some true :=
  ⟨by decide, (claim5_strict_order c7final_inv).1 0 (by decide)⟩

/-- The capacity-4 trace insert A..D, erase B, erase C, insert E, insert F,
erase E, erase F: `Bucket::completeInsert`'s `size == index` test
misclassifies recycled slot 2 (claimed when `size` was 2) as never-used and
rewires the chain, corrupting the bucket. -/
def c5run : Option (BucketStorage Nat) := do
  let s0 ← (mkWithCapacity 4 : Except Unit (BucketStorage Nat)).toOption
  let r1 ← insertOk s0 10
  let r2 ← insertOk r1.1 20
  let r3 ← insertOk r2.1 30
  let r4 ← insertOk r3.1 40
  let r5 ← erase r4.1 r2.2
  let r6 ← erase r5.1 r3.2
  let r7 ← insertOk r6.1 50
  let r8 ← insertOk r7.1 60
  let r9 ← erase r8.1 r7.2
  let r10 ← erase r9.1 r8.2
  pure r10.1

/-- C5 counterexample: in the (reachable) container `c5run`, forward
iteration from `begin()` visits `⟨1, 0⟩`, `⟨1, 3⟩`, `⟨1, 2⟩` consecutively,
and the second and third of these compare `<` as `false` (their insertion
ids are 6 and 5) - the sequence of iterators is not strictly increasing. -/
theorem claim5_counterexample :
    c5run.map (fun s =>
        (beginIt s, (beginIt s).bind (iterNext s),
          ((beginIt s).bind (iterNext s)).bind (iterNext s),
          iterLt s ⟨1, 3⟩ ⟨1, 2⟩)) =
      some (some ⟨1, 0⟩, some ⟨1, 3⟩, some ⟨1, 2⟩, some false) := by decide

/-! ### Claim C6: `get_to_distance` versus repeated single steps -/

/-- `n` applications of `operator++`. -/
def stepNextN (st : BucketStorage α) : Nat → Iter → Option Iter
  | 0, it => some it
  | n + 1, it =>
    match iterNext st it with
    | none => none
    | some it' => stepNextN st n it'

/-- `n` applications of `operator--`. -/
def stepPrevN (st : BucketStorage α) : Nat → Iter → Option Iter
  | 0, it => some it
  | n + 1, it =>
    match iterPrev st it with
    | none => none
    | some it' => stepPrevN st n it'

theorem stepNextN_seq {st : BucketStorage α} {rs : List Nat} {acts : List (List Nat)}
    {sa : Nat} (h : SInv st rs acts sa) :
    ∀ n p, p + n ≤ actsLen acts →
      stepNextN st n ((iterSeq rs acts sa).getD p ⟨0, 0⟩) =
        some ((iterSeq rs acts sa).getD (p + n) ⟨0, 0⟩) := by
  intro n
  induction n with
  | zero => intro p _; rfl
  | succ n ih =>
    intro p hp
    have hstep := (seq_step h (show p < actsLen acts by omega)).1
    unfold stepNextN
    rw [hstep]
    have := ih (p + 1) (by omega)
    rw [show p + (n + 1) = p + 1 + n by omega]
    exact this

theorem stepPrevN_seq {st : BucketStorage α} {rs : List Nat} {acts : List (List Nat)}
    {sa : Nat} (h : SInv st rs acts sa) :
    ∀ n p, n ≤ p → p ≤ actsLen acts →
      stepPrevN st n ((iterSeq rs acts sa).getD p ⟨0, 0⟩) =
        some ((iterSeq rs acts sa).getD (p - n) ⟨0, 0⟩) := by
  intro n
  induction n with
  | zero => intro p _ _; rw [Nat.sub_zero]; rfl
  | succ n ih =>
    intro p hn hp
    have hstep := (seq_step h (show p - 1 < actsLen acts by omega)).2
    rw [show p - 1 + 1 = p by omega] at hstep
    unfold stepPrevN
    rw [hstep]
    have := ih (p - 1) (by omega) (by omega)
    rw [show p - (n + 1) = p - 1 - n by omega]
    exact this

theorem gtd_pos {st : BucketStorage α} {rs : List Nat} {acts : List (List Nat)} {sa : Nat}
    (h : SInv st rs acts sa) :
    ∀ fuel n p, p + n ≤ actsLen acts → n < fuel →
      getToDistanceGo st fuel ((iterSeq rs acts sa).getD p ⟨0, 0⟩) (n : Int) =
        some ((iterSeq rs acts sa).getD (p + n) ⟨0, 0⟩) := by
  intro fuel
  induction fuel with
  | zero => intro n p _ hf; omega
  | succ fuel ih =>
    intro n p hp hf
    unfold getToDistanceGo
    by_cases hn0 : n = 0
    · subst hn0
      rw [if_neg (by simp), if_neg (by simp), Nat.add_zero]
    · rw [if_pos (by exact_mod_cast Nat.pos_of_ne_zero hn0)]
      have hpElem : p < actsLen acts := by omega
      obtain ⟨i, j, hi, hj, hpe⟩ := pos_decompose h.len_eq hpElem
      have hit : (iterSeq rs acts sa).getD p ⟨0, 0⟩ =
          ⟨rs.getD i 0, (acts.getD i []).getD j 0⟩ := by
        rw [hpe]; exact iterSeq_getD_elem h.len_eq hi hj
      have hlen1 : 0 < (acts.getD i []).length := by omega
      rw [hit]
      simp only [getBucket_live (sinv_live_r h hi)]
      by_cases hfast : ((bAt st (rs.getD i 0)).size : Int) < (n : Int) ∧
          (bAt st (rs.getD i 0)).firstIndex = (acts.getD i []).getD j 0
      · -- fast path: whole-bucket skip
        have hj0 : j = 0 := by
          have := hfast.2
          rw [h.b_first i hi] at this
          by_contra hne
          exact nodup_getD_ne (h.act_nodup i hi) hlen1 hj (by omega) 0 this
        have hlenn : (acts.getD i []).length < n := by
          have := hfast.1
          rw [h.b_size i hi] at this
          exact_mod_cast this
        have hpstart : p = posStart acts i := by omega
        have hnextpos : p + (acts.getD i []).length = posStart acts (i + 1) := by
          have := posStart_last_bucket (h.len_eq ▸ hi) (h.act_ne i hi)
          omega
        rw [if_pos hfast, h.chain_next i hi]
        have hlive2 : live st ((rs ++ [sa]).getD (i + 1) 0) :=
          sinv_live_all_getD h (by simp; omega)
        simp only [getBucket_live hlive2]
        have hcast : (n : Int) - ((bAt st (rs.getD i 0)).size : Int) =
            ((n - (acts.getD i []).length : Nat) : Int) := by
          rw [h.b_size i hi]; omega
        rw [hcast]
        by_cases hlt : i + 1 < rs.length
        · have htarget : (⟨(rs ++ [sa]).getD (i + 1) 0,
              (bAt st ((rs ++ [sa]).getD (i + 1) 0)).firstIndex⟩ : Iter) =
              (iterSeq rs acts sa).getD (p + (acts.getD i []).length) ⟨0, 0⟩ := by
            rw [hnextpos, show posStart acts (i + 1) = posStart acts (i + 1) + 0 by omega,
              iterSeq_getD_elem h.len_eq hlt (List.length_pos.mpr (h.act_ne (i + 1) hlt)),
              all_getD_lt hlt, h.b_first (i + 1) hlt]
          rw [htarget]
          have := ih (n - (acts.getD i []).length) (p + (acts.getD i []).length)
            (by omega) (by omega)
          rw [show p + (acts.getD i []).length + (n - (acts.getD i []).length) = p + n
            by omega] at this
          exact this
        · exfalso
          have hieq : i + 1 = rs.length := by omega
          have : posStart acts (i + 1) = actsLen acts := by
            rw [hieq, h.len_eq, posStart_full]
          omega
      · -- slow path: one single step
        rw [if_neg hfast]
        have hstep := (seq_step h hpElem).1
        rw [hit] at hstep
        rw [hstep]
        have hcast : (n : Int) - 1 = ((n - 1 : Nat) : Int) := by omega
        rw [hcast]
        have := ih (n - 1) (p + 1) (by omega) (by omega)
        rw [show p + 1 + (n - 1) = p + n by omega] at this
        exact this

theorem gtd_neg {st : BucketStorage α} {rs : List Nat} {acts : List (List Nat)} {sa : Nat}
    (h : SInv st rs acts sa) :
    ∀ fuel n p, n ≤ p → p ≤ actsLen acts → n < fuel →
      getToDistanceGo st fuel ((iterSeq rs acts sa).getD p ⟨0, 0⟩) (-(n : Int)) =
        some ((iterSeq rs acts sa).getD (p - n) ⟨0, 0⟩) := by
  intro fuel
  induction fuel with
  | zero => intro n p _ _ hf; omega
  | succ fuel ih =>
    intro n p hn hp hf
    unfold getToDistanceGo
    by_cases hn0 : n = 0
    · subst hn0
      rw [if_neg (by omega), if_neg (by omega), Nat.sub_zero]
    · have hnpos : 0 < n := Nat.pos_of_ne_zero hn0
      rw [if_neg (by omega), if_pos (by omega)]
      by_cases hpend : p = actsLen acts
      · subst hpend
        rw [iterSeq_getD_last h.len_eq]
        simp only [getBucket_live (sinv_live_sa h)]
        rw [if_neg (by
          intro hc
          have := hc.1
          rw [h.sent_size] at this
          omega)]
        have hstep := (seq_step h (show actsLen acts - 1 < actsLen acts by omega)).2
        rw [show actsLen acts - 1 + 1 = actsLen acts by omega,
          iterSeq_getD_last h.len_eq] at hstep
        rw [hstep]
        rw [show -(n : Int) + 1 = -(((n - 1 : Nat)) : Int) by omega]
        have := ih (n - 1) (actsLen acts - 1) (by omega) (by omega) (by omega)
        rw [show actsLen acts - 1 - (n - 1) = actsLen acts - n by omega] at this
        exact this
      · have hpElem : p < actsLen acts := by omega
        obtain ⟨i, j, hi, hj, hpe⟩ := pos_decompose h.len_eq hpElem
        have hit : (iterSeq rs acts sa).getD p ⟨0, 0⟩ =
            ⟨rs.getD i 0, (acts.getD i []).getD j 0⟩ := by
          rw [hpe]; exact iterSeq_getD_elem h.len_eq hi hj
        have hlen1 : 0 < (acts.getD i []).length := by omega
        rw [hit]
        simp only [getBucket_live (sinv_live_r h hi)]
        by_cases hfast : 0 < (bAt st (rs.getD i 0)).size ∧
            -(n : Int) < -((bAt st (rs.getD i 0)).size : Int) ∧
            (bAt st (rs.getD i 0)).lastIndex = (acts.getD i []).getD j 0
        · have hjl : j = (acts.getD i []).length - 1 := by
            have hlx := hfast.2.2
            rw [h.b_last i hi] at hlx
            by_contra hne
            exact nodup_getD_ne (h.act_nodup i hi) (by omega) hj (by omega) 0 hlx
          have hlenn : (acts.getD i []).length < n := by
            have hsz := hfast.2.1
            rw [h.b_size i hi] at hsz
            omega
          have hi0 : 0 < i := by
            by_contra h0
            have hieq : i = 0 := by omega
            subst hieq
            rw [posStart_zero] at hpe
            omega
          have hact' : 0 < (acts.getD (i - 1) []).length :=
            List.length_pos.mpr (h.act_ne (i - 1) (by omega))
          have hle : rs.length = acts.length := h.len_eq
          have hplast2 := posStart_last_bucket
            (show i - 1 < acts.length from by omega) (h.act_ne (i - 1) (by omega))
          rw [show i - 1 + 1 = i by omega] at hplast2
          rw [if_pos hfast]
          have hprev : (bAt st (rs.getD i 0)).prev = some (rs.getD (i - 1) 0) := by
            have hcp := h.chain_prev (i - 1) (by omega)
            rw [show i - 1 + 1 = i by omega, all_getD_lt hi] at hcp
            exact hcp
          rw [hprev]
          simp only [getBucket_live (sinv_live_r h (show i - 1 < rs.length by omega))]
          rw [show -(n : Int) + ((bAt st (rs.getD i 0)).size : Int) =
            -(((n - (acts.getD i []).length : Nat)) : Int) by rw [h.b_size i hi]; omega]
          have htarget : (iterSeq rs acts sa).getD (p - (acts.getD i []).length) ⟨0, 0⟩ =
              ⟨rs.getD (i - 1) 0, (bAt st (rs.getD (i - 1) 0)).lastIndex⟩ := by
            rw [show p - (acts.getD i []).length =
                posStart acts (i - 1) + ((acts.getD (i - 1) []).length - 1) by omega,
              iterSeq_getD_elem h.len_eq (show i - 1 < rs.length by omega) (by omega),
              h.b_last (i - 1) (by omega)]
          have := ih (n - (acts.getD i []).length) (p - (acts.getD i []).length)
            (by omega) (by omega) (by omega)
          rw [show p - (acts.getD i []).length - (n - (acts.getD i []).length) = p - n
            by omega] at this
          rw [htarget] at this
          exact this
        · rw [if_neg hfast]
          have hstep := (seq_step h (show p - 1 < actsLen acts by omega)).2
          rw [show p - 1 + 1 = p by omega, hit] at hstep
          rw [hstep]
          rw [show -(n : Int) + 1 = -(((n - 1 : Nat)) : Int) by omega]
          have := ih (n - 1) (p - 1) (by omega) (by omega) (by omega)
          rw [show p - 1 - (n - 1) = p - n by omega] at this
          exact this

/-- C6 (amended): in a well-formed container (spec section 3 invariant
`SInv`), for the `p`-th iterator of the logical sequence and any distance
`d` whose walk stays within `[begin(), end()]` (i.e. `0 ≤ p + d ≤` number of
elements), `get_to_distance` returns exactly the iterator at position
`p + d` - the same iterator that `|d|` repeated applications of `operator++`
(for `d ≥ 0`) or `operator--` (for `d < 0`) produce, including when the
bucket-skipping fast path is taken. -/
theorem claim6_get_to_distance {st : BucketStorage α} {rs : List Nat}
    {acts : List (List Nat)} {sa : Nat} (h : SInv st rs acts sa) {p : Nat} {d : Int}
    (hp : p ≤ actsLen acts) (hlo : 0 ≤ (p : Int) + d)
    (hhi : (p : Int) + d ≤ (actsLen acts : Int)) :
    get_to_distance st ((iterSeq rs acts sa).getD p ⟨0, 0⟩) d =
      some ((iterSeq rs acts sa).getD ((p : Int) + d).toNat ⟨0, 0⟩) ∧
    (0 ≤ d → stepNextN st d.toNat ((iterSeq rs acts sa).getD p ⟨0, 0⟩) =
      some ((iterSeq rs acts sa).getD ((p : Int) + d).toNat ⟨0, 0⟩)) ∧
    (d < 0 → stepPrevN st d.natAbs ((iterSeq rs acts sa).getD p ⟨0, 0⟩) =
      some ((iterSeq rs acts sa).getD ((p : Int) + d).toNat ⟨0, 0⟩)) := by
  by_cases hd : 0 ≤ d
  · have hdn : d = (d.toNat : Int) := (Int.toNat_of_nonneg hd).symm
    have htn : ((p : Int) + d).toNat = p + d.toNat := by omega
    have hcond : p + d.toNat ≤ actsLen acts := by omega
    refine ⟨?_, fun _ => ?_, fun hneg => absurd hneg (by omega)⟩
    · unfold get_to_distance
      rw [show d.natAbs + 1 = d.toNat + 1 by omega, htn]
      have := gtd_pos h (d.toNat + 1) d.toNat p hcond (by omega)
      rw [← hdn] at this
      exact this
    · rw [htn]
      exact stepNextN_seq h d.toNat p hcond
  · have hdn : d = -((d.natAbs : Nat) : Int) := by omega
    have hnp : d.natAbs ≤ p := by omega
    have htn : ((p : Int) + d).toNat = p - d.natAbs := by omega
    refine ⟨?_, fun hpos => absurd hpos (by omega), fun _ => ?_⟩
    · unfold get_to_distance
      rw [htn]
      have := gtd_neg h (d.natAbs + 1) d.natAbs p hnp hp (by omega)
      rw [← hdn] at this
      exact this
    · rw [htn]
      exact stepPrevN_seq h d.natAbs p hnp hp

/-- Witness for C6 at the concrete container `c7final`: from the first
iterator, distance 2 lands on the third iterator, as do two single `++`
steps. -/
theorem claim6_get_to_distance_witness :
    (0 : Nat) ≤ actsLen [[0, 1], [0]] ∧ (0 : Int) ≤ (0 : Int) + 2 ∧
      ((0 : Int) + 2 ≤ (actsLen [[0, 1], [0]] : Int)) ∧
      get_to_distance c7final ((iterSeq [1, 2] [[0, 1], [0]] 0).getD 0 ⟨0, 0⟩) 2 =
        some ((iterSeq [1, 2] [[0, 1], [0]] 0).getD (((0 : Int) + 2).toNat) ⟨0, 0⟩) :=
  ⟨by decide, by decide, by decide,
    (claim6_get_to_distance c7final_inv (by decide) (by decide) (by decide)).1⟩

/-- The capacity-4 corruption trace of `c5run` continued with four more
inserts: G and H land in the corrupted first bucket (whose `size` is 4 while
its active chain only reaches 3 slots), I and J in a fresh second bucket. -/
def c6run : Option (BucketStorage Nat) := do
  let s0 ← (mkWithCapacity 4 : Except Unit (BucketStorage Nat)).toOption
  let r1 ← insertOk s0 10
  let r2 ← insertOk r1.1 20
  let r3 ← insertOk r2.1 30
  let r4 ← insertOk r3.1 40
  let r5 ← erase r4.1 r2.2
  let r6 ← erase r5.1 r3.2
  let r7 ← insertOk r6.1 50
  let r8 ← insertOk r7.1 60
  let r9 ← erase r8.1 r7.2
  let r10 ← erase r9.1 r8.2
  let r11 ← insertOk r10.1 70
  let r12 ← insertOk r11.1 80
  let r13 ← insertOk r12.1 90
  let r14 ← insertOk r13.1 95
  pure r14.1

/-- C6 counterexample: in the (reachable) container `c6run`,
`get_to_distance(begin(), 5)` takes the bucket-skipping fast path and
returns `⟨2, 1⟩`, while 5 repeated `operator++` steps from `begin()` land
exactly on `end()` = `⟨0, 0⟩` (so the walk stays within `[begin(), end()]`);
the two results differ. -/
theorem claim6_counterexample :
    c6run.map (fun s =>
        (beginIt s, endIt s, get_to_distance s ⟨1, 0⟩ 5, stepNextN s 5 ⟨1, 0⟩)) =
      some (some ⟨1, 0⟩, some ⟨0, 0⟩, some ⟨2, 1⟩, some ⟨0, 0⟩) := by decide
end BucketModel
